import Mathlib

set_option maxHeartbeats 1000000

/-!
Verification development for the dataset-binding sidebar extension.

The embedding follows the TypeScript source of the repository: the
JavaScript string helpers used to derive the backend base URL, the
flattening of the fetched dataset catalog into bindable entries, the
serialization of the checked selection into the bind command, the
execution-channel output handlers, the checkbox selection state machine
of the bind dialog, and the toast notice queue.
-/

/-- First index at which the needle occurs as a contiguous run inside the
haystack, mirroring the search performed by the JavaScript String.indexOf. -/
def firstIdx (needle : List Char) : List Char → Option Nat
  | [] => if needle.isPrefixOf [] then some 0 else none
  | c :: t =>
    if needle.isPrefixOf (c :: t) then some 0
    else (firstIdx needle t).map (· + 1)

/-- JavaScript String.indexOf on character lists: the index of the first
occurrence of the needle, or -1 when the needle does not occur. -/
def jsIndexOf (hay needle : List Char) : Int :=
  match firstIdx needle hay with
  | some i => (i : Int)
  | none => -1

/-- Clamping of one integer argument of JavaScript String.substring into
the range from 0 to the string length. -/
def jsClamp (x : Int) (len : Nat) : Nat := (max 0 (min x (len : Int))).toNat

/-- JavaScript String.substring on character lists: both arguments are
clamped into the string and swapped when the start exceeds the end. -/
def jsSubstring (s : List Char) (a b : Int) : List Char :=
  let x := jsClamp a s.length
  let y := jsClamp b s.length
  (s.take (max x y)).drop (min x y)

/-- Source (part_000, lines 251-252 and 371-372; doc.tsx, lines 318-319):
url.indexOf of "jupyter" > -1 ? url.substring(that index, 0)
: url.substring(url.indexOf of "lab", 0). -/
def jsBaseUrl (url : List Char) : List Char :=
  if jsIndexOf url ("jupyter".toList) > -1 then
    jsSubstring url (jsIndexOf url ("jupyter".toList)) 0
  else
    jsSubstring url (jsIndexOf url ("lab".toList)) 0

/-- The base URL as claim C10 words it: the prefix strictly before the
first occurrence of "jupyter" when that substring occurs, otherwise the
prefix strictly before the first occurrence of "lab", and the empty
string when neither occurs. -/
def specBaseUrl (url : List Char) : List Char :=
  match firstIdx ("jupyter".toList) url with
  | some i => url.take i
  | none =>
    match firstIdx ("lab".toList) url with
    | some i => url.take i
    | none => []

/-- String-level wrapper of the base URL computation. -/
def baseUrlStr (url : String) : String := String.mk (jsBaseUrl url.toList)

lemma firstIdx_le_length {needle hay : List Char} {i : Nat}
    (h : firstIdx needle hay = some i) : i ≤ hay.length := by
  induction hay generalizing i with
  | nil =>
    rw [firstIdx] at h
    split at h
    · cases h; exact Nat.le_refl 0
    · cases h
  | cons c t ih =>
    rw [firstIdx] at h
    split at h
    · cases h; exact Nat.zero_le _
    · rcases Option.map_eq_some'.mp h with ⟨j, hj, rfl⟩
      have := ih hj
      simp [List.length_cons]
      omega

lemma jsClamp_neg_one (len : Nat) : jsClamp (-1) len = 0 := by
  unfold jsClamp; omega

lemma jsClamp_zero (len : Nat) : jsClamp 0 len = 0 := by
  unfold jsClamp; omega

lemma jsClamp_ofNat {i len : Nat} (h : i ≤ len) : jsClamp (i : Int) len = i := by
  unfold jsClamp; omega

lemma jsSubstring_ofNat_zero (s : List Char) (i : Nat) (h : i ≤ s.length) :
    jsSubstring s (i : Int) 0 = s.take i := by
  unfold jsSubstring
  rw [jsClamp_ofNat h, jsClamp_zero]
  simp

lemma jsSubstring_neg_one_zero (s : List Char) : jsSubstring s (-1) 0 = [] := by
  unfold jsSubstring
  rw [jsClamp_neg_one, jsClamp_zero]
  simp

/-- Claim C10: for every window URL, the base URL prepended to all HTTP
requests equals the prefix of the URL strictly before the first occurrence
of "jupyter" when "jupyter" occurs in it (String.substring swaps its
arguments when start exceeds end), otherwise the prefix strictly before
the first occurrence of "lab", and the empty string when neither
substring occurs. -/
theorem c10_baseUrl_prefix_before_marker (url : List Char) :
    jsBaseUrl url = specBaseUrl url := by
  unfold jsBaseUrl specBaseUrl jsIndexOf
  cases h1 : firstIdx ("jupyter".toList) url with
  | some i =>
    have hi : i ≤ url.length := firstIdx_le_length h1
    have hpos : ((i : Int) > -1) := by omega
    simp only [hpos, if_pos]
    exact jsSubstring_ofNat_zero url i hi
  | none =>
    have hneg : ¬ ((-1 : Int) > -1) := by omega
    simp only [hneg, if_false]
    cases h2 : firstIdx ("lab".toList) url with
    | some j =>
      exact jsSubstring_ofNat_zero url j (firstIdx_le_length h2)
    | none =>
      exact jsSubstring_neg_one_zero url

/-- One element of the samples array of a fetched dataset. -/
structure Sample where
  datasetsId : Nat
  key : String
  dsId : Nat
deriving DecidableEq, Repr

/-- One dataset of the catalog response, with the fields the source reads. -/
structure Dataset where
  dataSourceId : Nat
  dataSourceName : String
  userId : Nat
  username : String
  samples : List Sample
deriving DecidableEq, Repr

/-- The object pushed by the nested flattening loops (part_000, lines
388-400): it carries only the seven fields assigned there. -/
structure RawEntry where
  id : Nat
  dataSetId : Nat
  key : String
  dataSetName : String
  dsId : Nat
  userId : Nat
  username : String
deriving DecidableEq, Repr

/-- A bindable entry after the initialization pass added the checklist
fields (part_000, lines 401-404). -/
structure Entry where
  id : Nat
  dataSetId : Nat
  key : String
  dataSetName : String
  dsId : Nat
  userId : Nat
  username : String
  isChecked : Bool
  varName : String
deriving DecidableEq, Repr

/-- The catalog response of the datasets list endpoint. -/
structure Response where
  code : Nat
  msg : String
  datasets : List Dataset
deriving DecidableEq, Repr

/-- The object built for one sample inside the nested loops. -/
def rawOf (d : Dataset) (s : Sample) : RawEntry :=
  ⟨s.datasetsId, d.dataSourceId, s.key, d.dataSourceName, s.dsId, d.userId, d.username⟩

/-- The nested push loops over the datasets and their samples arrays. -/
def flattenRaw (ds : List Dataset) : List RawEntry :=
  ds.foldl (fun acc d => d.samples.foldl (fun acc2 s => acc2 ++ [rawOf d s]) acc) []

/-- The initialization pass: isChecked becomes false, varName empty. -/
def initEntry (r : RawEntry) : Entry :=
  ⟨r.id, r.dataSetId, r.key, r.dataSetName, r.dsId, r.userId, r.username, false, ""⟩

/-- The posts array exactly as it stands when the dialog body is built. -/
def initPosts (ds : List Dataset) : List Entry :=
  (flattenRaw ds).map initEntry

/-- The flattened list as claim C1 words it: one entry per element of
every samples array, carrying the stated field mapping and the initial
checklist state. -/
def claimFlatten (ds : List Dataset) : List Entry :=
  ds.flatMap (fun d => d.samples.map (fun s =>
    ⟨s.datasetsId, d.dataSourceId, s.key, d.dataSourceName, s.dsId, d.userId, d.username,
      false, ""⟩))

lemma foldl_push_eq_map {α β : Type} (f : α → β) :
    ∀ (l : List α) (acc : List β),
      l.foldl (fun a b => a ++ [f b]) acc = acc ++ l.map f := by
  intro l
  induction l with
  | nil => intro acc; simp
  | cons b t ih =>
    intro acc
    simp only [List.foldl_cons, List.map_cons]
    rw [ih]
    simp

lemma flattenRaw_eq_flatMap (ds : List Dataset) :
    flattenRaw ds = ds.flatMap (fun d => d.samples.map (rawOf d)) := by
  suffices h : ∀ acc, ds.foldl
      (fun acc d => d.samples.foldl (fun acc2 s => acc2 ++ [rawOf d s]) acc) acc
      = acc ++ ds.flatMap (fun d => d.samples.map (rawOf d)) by
    simpa [flattenRaw] using h []
  induction ds with
  | nil => intro acc; simp
  | cons d t ih =>
    intro acc
    simp only [List.foldl_cons, List.flatMap_cons]
    rw [foldl_push_eq_map, ih]
    simp

/-- Claim C1: for every catalog response, the flattened bindable-entry
list contains exactly one entry per element of every samples array of a
dataset, and each entry carries id from the sample datasetsId, dataSetId
from the dataset dataSourceId, key from the sample key, dataSetName from
the dataset dataSourceName, dsId from the sample dsId, userId and
username from the dataset, and is initialized with isChecked false and
empty varName before the dialog is shown. -/
theorem c1_flatten_one_entry_per_sample (ds : List Dataset) :
    initPosts ds = claimFlatten ds := by
  unfold initPosts claimFlatten
  rw [flattenRaw_eq_flatMap, List.map_flatMap]
  simp only [List.map_map]
  rfl

/-- A JSON-like value occurring in the POST body. -/
inductive JVal where
  | num (n : Nat)
  | str (s : String)
deriving DecidableEq, Repr

/-- The object forwarded per checked entry (part_000, lines 448-453):
a literal with exactly the keys id and varName. -/
def mkBindObj (e : Entry) : List (String × JVal) :=
  [("id", JVal.num e.id), ("varName", JVal.str e.varName)]

/-- The bindDatasets array built by the push loop over checkDataArr. -/
def bindDatasetsOf (checkDataArr : List Entry) : List (List (String × JVal)) :=
  checkDataArr.foldl (fun a e => a ++ [mkBindObj e]) []

/-- The JSON body of the persistence POST (part_000, lines 466-470). -/
structure PostBody where
  action : String
  notebookId : String
  datasets : List (List (String × JVal))
deriving DecidableEq, Repr

/-- An observable effect of the component: an HTTP request, a command on
the execution channel, the session-open signal, a toast, or one of the
two setState calls. -/
inductive Eff where
  | httpGet (url : String)
  | httpPost (url : String) (body : PostBody)
  | execute (code : String)
  | emitOpen
  | toast (kind : String) (content : String)
  | setDisplayStyle (b : Bool)
  | setName (s : String)
deriving DecidableEq, Repr

/-- A message arriving on the IOPub channel; text is absent when the
content carries no text field. -/
structure Msg where
  text : Option String
deriving DecidableEq, Repr

/-- JavaScript truthiness of the text field: absent or empty is falsy. -/
def jsTruthy : Option String → Bool
  | none => false
  | some s => !(s == "")

/-- The guard pattern of the handlers: a.text && a.text.indexOf(pat) > -1. -/
def textMatches (t : Option String) (pat : String) : Bool :=
  jsTruthy t && (jsIndexOf (t.getD ("")).toList pat.toList > -1)

def bindSuccessText : String := "bind successed"
def bindFailText : String := "binding fails"
def quitSuccessText : String := "quit successed"
def quitFailText : String := "quit fails"
def bindOkToast : String := "绑定成功！"
def bindErrToast : String := "绑定失败！"
def quitOkToast : String := "解绑成功！"
def quitErrToast : String := "解绑失败！"
def loadingToast : String := "加载中..."
def kindSuccess : String := "success"
def kindError : String := "error"
def kindLoading : String := "loading"
def bindsPath : String := "api/binds/0"
def datasetsListQuery : String := "api/datasets/list?pageNo=1&pageSize=999&isPublic=2"

/-- The body handed to bindToBackend (part_000, lines 466-470). -/
def bindPostBody (user path : String) (bDs : List (List (String × JVal))) : PostBody :=
  ⟨"bind", user ++ "@" ++ path, bDs⟩

/-- bindToBackend (part_000, lines 250-268): one POST to the binds
endpoint under the base URL derived from the window URL. -/
def bindToBackendAction (url : String) (body : PostBody) : Eff :=
  Eff.httpPost (baseUrlStr url ++ bindsPath) body

/-- The onIOPub handler installed after the bind command is sent
(part_000, lines 462-484), as the list of effects it runs on one
message. -/
def bindActions (url user path : String) (bDs : List (List (String × JVal)))
    (msg : Msg) : List Eff :=
  (if textMatches msg.text bindSuccessText then
    [bindToBackendAction url (bindPostBody user path bDs),
     Eff.setDisplayStyle false, Eff.setName path,
     Eff.toast kindSuccess bindOkToast]
   else [])
  ++ (if textMatches msg.text bindFailText then
    [Eff.toast kindError bindErrToast]
   else [])

/-- The onIOPub handler installed after the quit command is sent
(part_000, lines 352-367). -/
def unbindActions (path : String) (msg : Msg) : List Eff :=
  (if textMatches msg.text quitSuccessText then
    [Eff.toast kindSuccess quitOkToast,
     Eff.setDisplayStyle true, Eff.setName path]
   else [])
  ++ (if textMatches msg.text quitFailText then
    [Eff.toast kindError quitErrToast]
   else [])

/-- All effects the bind handler runs over a sequence of IOPub messages. -/
def runBindIOPub (url user path : String) (bDs : List (List (String × JVal)))
    (msgs : List Msg) : List Eff :=
  msgs.foldl (fun acc m => acc ++ bindActions url user path bDs m) []

/-- The serialized tuple for one checked entry (part_000, line 449). -/
def entryTuple (e : Entry) : String :=
  "(\"" ++ e.varName ++ "\", " ++ toString e.dsId ++ ", " ++ toString e.dataSetId
    ++ ", " ++ toString e.id ++ ")"

/-- The arr list built by the push loop over checkDataArr (lines 446-454). -/
def confirmArr (checkDataArr : List Entry) : List String :=
  checkDataArr.foldl (fun a e => a ++ [entryTuple e]) []

/-- The command string (part_000, line 455). -/
def confirmCode (user path : String) (checkDataArr : List Entry) : String :=
  "% bind --task=\"" ++ user ++ "@" ++ path ++ "\" --sources=["
    ++ String.intercalate ("," ) (confirmArr checkDataArr) ++ "]"

/-- The dialog continuation (part_000, lines 443-486): on accept it emits
the session-open signal, sends the command, and installs the IOPub
handler whose effects over the subsequent messages follow; on cancel it
does nothing. -/
def confirmFlow (accept : Bool) (url user path : String)
    (checkDataArr : List Entry) (msgs : List Msg) : List Eff :=
  if accept then
    Eff.emitOpen :: Eff.execute (confirmCode user path checkDataArr)
      :: runBindIOPub url user path (bindDatasetsOf checkDataArr) msgs
  else []

/-- The immediate effects of pressing the bind button (part_000, lines
369-382): a loading toast and the single catalog GET. -/
def bindClickActions (url : String) : List Eff :=
  [Eff.toast kindLoading loadingToast,
   Eff.httpGet (baseUrlStr url ++ datasetsListQuery)]

/-- The continuation of the catalog fetch builds the bindable entries from
the datasets array of the response. -/
def bindPosts (resp : Response) : List Entry :=
  initPosts resp.datasets

/-- Recognizer for GET requests among the effects. -/
def isGet : Eff → Bool
  | Eff.httpGet _ => true
  | _ => false

lemma infix_iff_exists_drop_pref (n h : List Char) :
    n <:+: h ↔ ∃ i, n <+: List.drop i h := by
  constructor
  · rintro ⟨s, t, rfl⟩
    refine ⟨s.length, t, ?_⟩
    rw [List.append_assoc, List.drop_left]
  · rintro ⟨i, t, ht⟩
    refine ⟨h.take i, t, ?_⟩
    rw [List.append_assoc, ht, List.take_append_drop]

lemma firstIdx_isSome_drop (n : List Char) :
    ∀ h : List Char, (firstIdx n h).isSome = true ↔ ∃ i, n <+: List.drop i h := by
  intro h
  induction h with
  | nil =>
    rw [firstIdx]
    split
    · rename_i hp
      simp only [Option.isSome_some, true_iff]
      exact ⟨0, by simpa using hp⟩
    · rename_i hp
      constructor
      · intro h
        simp at h
      · rintro ⟨i, hi⟩
        simp only [List.drop_nil] at hi
        exact absurd (by simpa using hi) hp
  | cons c t ih =>
    rw [firstIdx]
    split
    · rename_i hp
      simp only [Option.isSome_some, true_iff]
      exact ⟨0, by simpa using hp⟩
    · rename_i hp
      rw [Option.isSome_map', ih]
      constructor
      · rintro ⟨i, hi⟩
        exact ⟨i + 1, by simpa using hi⟩
      · rintro ⟨i, hi⟩
        cases i with
        | zero =>
          exact absurd (by simpa using hi) hp
        | succ j =>
          exact ⟨j, by simpa using hi⟩

lemma firstIdx_isSome_occurs (n h : List Char) :
    (firstIdx n h).isSome = true ↔ n <:+: h :=
  (firstIdx_isSome_drop n h).trans (infix_iff_exists_drop_pref n h).symm

lemma jsIndexOf_gt_neg_one (hay needle : List Char) :
    (jsIndexOf hay needle > -1) ↔ (firstIdx needle hay).isSome = true := by
  unfold jsIndexOf
  cases h : firstIdx needle hay with
  | some i =>
    simp [h]
    omega
  | none => simp [h]

lemma textMatches_iff {t : Option String} {pat : String} (hp : pat.toList ≠ []) :
    textMatches t pat = true ↔ ∃ s, t = some s ∧ pat.toList <:+: s.toList := by
  cases t with
  | none => simp [textMatches, jsTruthy]
  | some s =>
    unfold textMatches jsTruthy
    rw [Bool.and_eq_true]
    constructor
    · rintro ⟨_, h2⟩
      have := (jsIndexOf_gt_neg_one _ _).mp (of_decide_eq_true h2)
      exact ⟨s, rfl, (firstIdx_isSome_occurs _ _).mp (by simpa using this)⟩
    · rintro ⟨s2, hs, hinf⟩
      cases hs
      have hnil : s.toList ≠ [] := by
        intro h0
        rw [h0] at hinf
        exact hp (by simpa using hinf)
      have hs0 : s ≠ "" := by
        intro h0
        subst h0
        exact hnil rfl
      refine ⟨by simpa using hs0, ?_⟩
      have : (firstIdx pat.toList s.toList).isSome = true :=
        (firstIdx_isSome_occurs _ _).mpr hinf
      exact decide_eq_true ((jsIndexOf_gt_neg_one _ _).mpr (by simpa using this))

lemma foldl_append_eq_flatMap {α β : Type} (f : α → List β) :
    ∀ (l : List α) (acc : List β),
      l.foldl (fun a b => a ++ f b) acc = acc ++ l.flatMap f := by
  intro l
  induction l with
  | nil => intro acc; simp
  | cons b t ih =>
    intro acc
    simp only [List.foldl_cons, List.flatMap_cons]
    rw [ih]
    simp

lemma runBindIOPub_eq_flatMap (url user path : String)
    (bDs : List (List (String × JVal))) (msgs : List Msg) :
    runBindIOPub url user path bDs msgs = msgs.flatMap (bindActions url user path bDs) := by
  unfold runBindIOPub
  rw [foldl_append_eq_flatMap]
  simp

lemma post_mem_bindActions (url user path : String)
    (bDs : List (List (String × JVal))) (m : Msg) :
    bindToBackendAction url (bindPostBody user path bDs) ∈ bindActions url user path bDs m
      ↔ textMatches m.text bindSuccessText = true := by
  unfold bindActions
  cases h1 : textMatches m.text bindSuccessText <;>
    cases h2 : textMatches m.text bindFailText <;>
      simp [h1, h2, bindToBackendAction]

lemma setDS_mem_bindActions (url user path : String)
    (bDs : List (List (String × JVal))) (m : Msg) :
    Eff.setDisplayStyle false ∈ bindActions url user path bDs m
      ↔ textMatches m.text bindSuccessText = true := by
  unfold bindActions
  cases h1 : textMatches m.text bindSuccessText <;>
    cases h2 : textMatches m.text bindFailText <;>
      simp [h1, h2]

lemma errToast_mem_bindActions (url user path : String)
    (bDs : List (List (String × JVal))) (m : Msg) :
    Eff.toast kindError bindErrToast ∈ bindActions url user path bDs m
      ↔ textMatches m.text bindFailText = true := by
  unfold bindActions
  cases h1 : textMatches m.text bindSuccessText <;>
    cases h2 : textMatches m.text bindFailText <;>
      simp [h1, h2, kindError, kindSuccess, bindOkToast, bindErrToast, bindToBackendAction]

lemma errToast_mem_unbindActions (path : String) (m : Msg) :
    Eff.toast kindError quitErrToast ∈ unbindActions path m
      ↔ textMatches m.text quitFailText = true := by
  unfold unbindActions
  cases h1 : textMatches m.text quitSuccessText <;>
    cases h2 : textMatches m.text quitFailText <;>
      simp [h1, h2, kindError, kindSuccess, quitOkToast, quitErrToast]

/-- Claim C2: when the user confirms the bind dialog, the flow emits the
session-open signal and sends to the execution channel exactly the
command percent-bind with task set to user at path and sources the
comma-joined tuples of varName, dsId, dataSetId and id, one per checked
entry, in the order of the selection array. -/
theorem c2_confirm_command_string (url user path : String)
    (checkDataArr : List Entry) (msgs : List Msg) :
    confirmFlow true url user path checkDataArr msgs
      = Eff.emitOpen
        :: Eff.execute ("% bind --task=\"" ++ user ++ "@" ++ path ++ "\" --sources=["
          ++ String.intercalate ("," ) (checkDataArr.map (fun e =>
            "(\"" ++ e.varName ++ "\", " ++ toString e.dsId ++ ", "
              ++ toString e.dataSetId ++ ", " ++ toString e.id ++ ")")) ++ "]")
        :: runBindIOPub url user path (bindDatasetsOf checkDataArr) msgs := by
  unfold confirmFlow confirmCode confirmArr
  rw [if_pos rfl, foldl_push_eq_map]
  rfl

/-- Claim C3: the persistence POST (endpoint api/binds/0 under the base
URL, body with action bind, notebookId user at path, and the datasets)
and the flip of the is-bound display state happen if and only if some
IOPub message carries a text field containing the substring
"bind successed". -/
theorem c3_post_and_flip_iff_success (url user path : String)
    (bDs : List (List (String × JVal))) (msgs : List Msg) :
    (bindToBackendAction url (bindPostBody user path bDs)
        ∈ runBindIOPub url user path bDs msgs
      ∧ Eff.setDisplayStyle false ∈ runBindIOPub url user path bDs msgs)
    ↔ ∃ m ∈ msgs, ∃ s, m.text = some s ∧ bindSuccessText.toList <:+: s.toList := by
  rw [runBindIOPub_eq_flatMap]
  constructor
  · rintro ⟨hpost, _⟩
    rcases List.mem_flatMap.mp hpost with ⟨m, hm, hmem⟩
    have hc := (post_mem_bindActions url user path bDs m).mp hmem
    rcases (textMatches_iff (by decide)).mp hc with ⟨s, hs, hinf⟩
    exact ⟨m, hm, s, hs, hinf⟩
  · rintro ⟨m, hm, s, hs, hinf⟩
    have hc : textMatches m.text bindSuccessText = true :=
      (textMatches_iff (by decide)).mpr ⟨s, hs, hinf⟩
    exact ⟨List.mem_flatMap.mpr ⟨m, hm, (post_mem_bindActions url user path bDs m).mpr hc⟩,
      List.mem_flatMap.mpr ⟨m, hm, (setDS_mem_bindActions url user path bDs m).mpr hc⟩⟩

/-- A message whose text carries both the success and the dedicated
failure substring of the bind handler. -/
def bothMsg : Msg := ⟨some ("bind successed but binding fails")⟩

/-- Counterexample to claim C4: on this message the failure toast is
shown although the expected success substring is present in the text, so
failure is not reported by the absence of the success substring; it is
reported because the dedicated failure substring matches. -/
theorem c4_counterexample :
    Eff.toast kindError bindErrToast ∈ bindActions ("") ("u") ("p") [] bothMsg
      ∧ bindSuccessText.toList <:+: ("bind successed but binding fails").toList := by
  constructor
  · decide
  · decide

/-- Claim C4 as amended: for every IOPub message, the failure toast of
the bind handler is shown exactly when the message text contains the
dedicated failure substring "binding fails", and the failure toast of
the unbind handler exactly when the text contains "quit fails"; absence
of the success substring alone triggers no failure report. -/
theorem c4_amended_failure_by_dedicated_substring (url user path : String)
    (bDs : List (List (String × JVal))) (msg : Msg) :
    (Eff.toast kindError bindErrToast ∈ bindActions url user path bDs msg
      ↔ ∃ s, msg.text = some s ∧ bindFailText.toList <:+: s.toList)
    ∧ (Eff.toast kindError quitErrToast ∈ unbindActions path msg
      ↔ ∃ s, msg.text = some s ∧ quitFailText.toList <:+: s.toList) :=
  ⟨(errToast_mem_bindActions url user path bDs msg).trans (textMatches_iff (by decide)),
   (errToast_mem_unbindActions path msg).trans (textMatches_iff (by decide))⟩

/-- A concrete checked entry used to exhibit the shape of the forwarded
binding record. -/
def e0 : Entry := ⟨1, 2, "k", "dn", 3, 4, "u", false, "v"⟩

/-- Counterexample to claim C5: the record forwarded to the persistence
endpoint for a checked entry carries only the keys id and varName; the
dataSetId field of the entry (and likewise key, dataSetName, dsId,
userId, username) is absent, so the checked entries are not forwarded
with all of their fields. -/
theorem c5_counterexample :
    bindDatasetsOf [e0] = [[("id", JVal.num 1), ("varName", JVal.str ("v"))]]
      ∧ ("dataSetId", JVal.num e0.dataSetId) ∉ mkBindObj e0 := by
  constructor
  · decide
  · decide

/-- Claim C5 as amended: the selection forwarded to the persistence
endpoint contains one record per checked entry, in selection order, and
each record carries exactly the id and the varName of its entry. -/
theorem c5_amended_forward_only_id_varName (checkDataArr : List Entry) :
    bindDatasetsOf checkDataArr
      = checkDataArr.map (fun e => [("id", JVal.num e.id), ("varName", JVal.str e.varName)]) := by
  unfold bindDatasetsOf
  rw [foldl_push_eq_map]
  simp [mkBindObj]

/-- Claim C6: when the user dismisses the bind dialog without accepting,
no command is sent to the execution channel, no session-open signal is
emitted, no POST is issued, and the is-bound display state is not
touched: the cancel branch of the dialog continuation produces no effect
at all, whatever messages later arrive. -/
theorem c6_cancel_produces_no_effects (url user path : String)
    (checkDataArr : List Entry) (msgs : List Msg) :
    confirmFlow false url user path checkDataArr msgs = [] := rfl

/-- Claim C9: pressing the bind button issues exactly one HTTP GET, whose
URL is the base URL concatenated with the page-1, size-999 datasets list
query, and the bindable entries are built solely from the datasets array
of that single response. -/
theorem c9_single_catalog_get (url : String) (resp : Response) :
    (bindClickActions url).filter isGet
        = [Eff.httpGet (baseUrlStr url ++ datasetsListQuery)]
      ∧ bindPosts resp = claimFlatten resp.datasets := by
  constructor
  · rfl
  · unfold bindPosts claimFlatten initPosts
    rw [flattenRaw_eq_flatMap, List.map_flatMap]
    simp only [List.map_map]
    rfl

/-- A toast notice (toast.tsx): kind, content, duration and the key the
component assigns when the notice is stored. -/
structure Notice where
  kind : String
  content : String
  duration : Nat
  key : String
deriving DecidableEq, Repr

/-- addNotice (toast.tsx, lines 24-38): the generated key is written into
the notice and the notice is stored at index 0 of the list, replacing the
element there while keeping any tail. -/
def addNotice (notices : List Notice) (n : Notice) (k : String) : List Notice :=
  match notices with
  | [] => [{ n with key := k }]
  | _ :: t => { n with key := k } :: t

/-- removeNotice (toast.tsx, lines 40-51): keep exactly the notices whose
key differs from the removed one. -/
def removeNotice (notices : List Notice) (k : String) : List Notice :=
  notices.filter fun m => !(m.key == k)

/-- One operation on the notice list; the add operation carries the key
the component generates for it. -/
inductive ToastOp where
  | add (n : Notice) (k : String)
  | remove (k : String)
deriving DecidableEq, Repr

def toastStep (notices : List Notice) : ToastOp → List Notice
  | ToastOp.add n k => addNotice notices n k
  | ToastOp.remove k => removeNotice notices k

/-- The notice list reached from the empty list by a sequence of
operations. -/
def runToast (ops : List ToastOp) : List Notice :=
  ops.foldl toastStep []

lemma toastStep_length_le {l : List Notice} (h : l.length ≤ 1) (op : ToastOp) :
    (toastStep l op).length ≤ 1 := by
  cases op with
  | add n k =>
    cases l with
    | nil => simp [toastStep, addNotice]
    | cons x t =>
      simp only [List.length_cons] at h
      have ht : t = [] := List.eq_nil_of_length_eq_zero (by omega)
      subst ht
      simp [toastStep, addNotice]
  | remove k =>
    exact Nat.le_trans (List.length_filter_le _ _) h

lemma runToast_length_le (ops : List ToastOp) : (runToast ops).length ≤ 1 := by
  suffices h : ∀ l : List Notice, l.length ≤ 1 → (ops.foldl toastStep l).length ≤ 1 from
    h [] (by simp)
  induction ops with
  | nil => intro l hl; simpa using hl
  | cons op t ih =>
    intro l hl
    simp only [List.foldl_cons]
    exact ih _ (toastStep_length_le hl op)

/-- Claim C8: at most one toast notice is visible at any time: for every
sequence of add and remove operations starting from the empty notice
list, the list has length at most one, and each add replaces the
currently visible notice with the new one (with its generated key). -/
theorem c8_single_visible_notice (ops : List ToastOp) :
    (runToast ops).length ≤ 1
      ∧ ∀ (n : Notice) (k : String),
          runToast (ops ++ [ToastOp.add n k]) = [{ n with key := k }] := by
  refine ⟨runToast_length_le ops, ?_⟩
  intro n k
  unfold runToast
  rw [List.foldl_append]
  have h := runToast_length_le ops
  unfold runToast at h
  cases hl : List.foldl toastStep [] ops with
  | nil => simp [toastStep, addNotice]
  | cons x t =>
    rw [hl] at h
    simp only [List.length_cons] at h
    have ht : t = [] := List.eq_nil_of_length_eq_zero (by omega)
    subst ht
    simp [toastStep, addNotice]

/-- One pass of the splice loop of the uncheck branch (part_000, lines
419-423): the keys 0 to the original length minus 1 are visited in order;
at each key still inside the current array, a matching element is removed
in place, so the element shifted into the visited position is skipped. -/
def goRemove {α : Type} (p : α → Bool) : Nat → Nat → List α → List α
  | 0, _, arr => arr
  | fuel + 1, k, arr =>
    if arr[k]?.any p then goRemove p fuel (k + 1) (arr.eraseIdx k)
    else goRemove p fuel (k + 1) arr

/-- The for-in splice loop over the current selection array. -/
def jsEnumRemove {α : Type} (p : α → Bool) (arr : List α) : List α :=
  goRemove p arr.length 0 arr

lemma goRemove_no_match {α : Type} (p : α → Bool) :
    ∀ (fuel k : Nat) (arr : List α), (∀ a ∈ arr.drop k, p a = false) →
      goRemove p fuel k arr = arr := by
  intro fuel
  induction fuel with
  | zero => intro k arr _; rfl
  | succ f ih =>
    intro k arr h
    rw [goRemove]
    have hcond : arr[k]?.any p = false := by
      cases hk : arr[k]? with
      | none => rfl
      | some a =>
        have hlt : k < arr.length := by
          by_contra hge
          rw [List.getElem?_eq_none (by omega)] at hk
          cases hk
        have ha : arr[k] = a := by
          rw [List.getElem?_eq_getElem hlt] at hk
          exact Option.some.inj hk
        have hmem : a ∈ arr.drop k := by
          rw [List.drop_eq_getElem_cons hlt, ha]
          exact List.mem_cons_self a _
        rw [Option.any_some]
        exact h a hmem
    rw [hcond]
    simp only [Bool.false_eq_true, if_false]
    exact ih (k + 1) arr fun a ha => h a (List.drop_subset_drop_left arr (Nat.le_succ k) ha)

lemma goRemove_found {α : Type} (p : α → Bool) :
    ∀ (xs pre ys : List α) (y : α) (fuel : Nat),
      (∀ a ∈ xs, p a = false) → p y = true → (∀ a ∈ ys, p a = false) →
      xs.length + 1 ≤ fuel →
      goRemove p fuel pre.length (pre ++ (xs ++ y :: ys)) = pre ++ (xs ++ ys) := by
  intro xs
  induction xs with
  | nil =>
    intro pre ys y fuel _ hy hys hfuel
    cases fuel with
    | zero => omega
    | succ f =>
      rw [goRemove]
      have hget : (pre ++ ([] ++ y :: ys))[pre.length]? = some y := by
        rw [List.nil_append, List.getElem?_append_right (Nat.le_refl pre.length)]
        simp
      rw [hget, Option.any_some, hy]
      simp only [if_true]
      have herase : (pre ++ ([] ++ y :: ys)).eraseIdx pre.length = pre ++ ys := by
        rw [List.nil_append, List.eraseIdx_append_of_length_le (Nat.le_refl pre.length)]
        simp
      rw [herase]
      rw [goRemove_no_match p f (pre.length + 1) (pre ++ ys) ?_]
      · simp
      · intro a ha
        have h1 : (pre ++ ys).drop (pre.length + 1) = ys.drop 1 := by
          have h2 : (pre ++ ys).drop pre.length = ys := List.drop_left pre ys
          calc (pre ++ ys).drop (pre.length + 1)
              = ((pre ++ ys).drop pre.length).drop 1 := by
                rw [List.drop_drop]
            _ = ys.drop 1 := by rw [h2]
        rw [h1] at ha
        exact hys a (List.drop_subset 1 ys ha)
  | cons x xs2 ih =>
    intro pre ys y fuel hxs hy hys hfuel
    cases fuel with
    | zero => omega
    | succ f =>
      rw [goRemove]
      have hget : (pre ++ ((x :: xs2) ++ y :: ys))[pre.length]? = some x := by
        rw [List.getElem?_append_right (Nat.le_refl pre.length)]
        simp
      have hx : p x = false := hxs x (List.mem_cons_self x xs2)
      rw [hget, Option.any_some, hx]
      simp only [Bool.false_eq_true, if_false]
      have e1 : pre ++ ((x :: xs2) ++ y :: ys) = (pre ++ [x]) ++ (xs2 ++ y :: ys) := by
        simp
      have e2 : pre.length + 1 = (pre ++ [x]).length := by simp
      rw [e1, e2, ih (pre ++ [x]) ys y f (fun a ha => hxs a (List.mem_cons_of_mem x ha))
        hy hys (by simp at hfuel ⊢; omega)]
      simp

lemma jsEnumRemove_single {α : Type} (p : α → Bool) (xs ys : List α) (y : α)
    (hxs : ∀ a ∈ xs, p a = false) (hy : p y = true) (hys : ∀ a ∈ ys, p a = false) :
    jsEnumRemove p (xs ++ y :: ys) = xs ++ ys := by
  unfold jsEnumRemove
  have h := goRemove_found p xs [] ys y (xs ++ y :: ys).length hxs hy hys
    (by simp)
  simpa using h

/-- The dialog checklist state: the isChecked flags of the posts entries
(positionally) and the selection array holding positions of posts. -/
structure ToggleState where
  flags : List Bool
  sel : List Nat
deriving DecidableEq, Repr

/-- The id of the entry at a position of posts. -/
def idAt (posts : List Entry) (j : Nat) : Nat :=
  (posts[j]?.map Entry.id).getD 0

/-- The onChange handler of one checkbox (part_000, lines 414-425): the
flag of the toggled item flips; when it becomes checked the item is
pushed onto the selection array, otherwise the splice loop removes the
entries whose id equals the id of the toggled item. -/
def toggle (posts : List Entry) (st : ToggleState) (i : Nat) : ToggleState :=
  if st.flags.getD i false then
    ⟨st.flags.set i false, jsEnumRemove (fun j => idAt posts j == idAt posts i) st.sel⟩
  else
    ⟨st.flags.set i true, st.sel ++ [i]⟩

/-- The state after a sequence of checkbox toggles, starting from all
entries unchecked and the empty selection array. -/
def runToggles (posts : List Entry) (events : List Nat) : ToggleState :=
  events.foldl (toggle posts) ⟨List.replicate posts.length false, []⟩

/-- The selection array holds exactly the positions of the currently
checked entries, each at most once. -/
def SelMatches (posts : List Entry) (st : ToggleState) : Prop :=
  st.sel.Nodup ∧
  ∀ j, j ∈ st.sel ↔ (j < posts.length ∧ st.flags.getD j false = true)

/-- The inductive invariant of the checklist state. -/
def SelInv (posts : List Entry) (st : ToggleState) : Prop :=
  st.flags.length = posts.length ∧ SelMatches posts st

lemma getD_set_self {l : List Bool} {i : Nat} (hi : i < l.length) (b : Bool) :
    (l.set i b).getD i false = b := by
  rw [List.getD_eq_getElem?_getD, List.getElem?_set_self hi]
  rfl

lemma getD_set_ne {l : List Bool} {i j : Nat} (h : i ≠ j) (b : Bool) :
    (l.set i b).getD j false = l.getD j false := by
  rw [List.getD_eq_getElem?_getD, List.getD_eq_getElem?_getD, List.getElem?_set_ne h]

lemma idAt_inj {posts : List Entry} (hIds : (posts.map Entry.id).Nodup)
    {i j : Nat} (hi : i < posts.length) (hj : j < posts.length)
    (h : idAt posts i = idAt posts j) : i = j := by
  unfold idAt at h
  rw [List.getElem?_eq_getElem hi, List.getElem?_eq_getElem hj] at h
  simp only [Option.map_some', Option.getD_some] at h
  have hmi : i < (posts.map Entry.id).length := by simpa using hi
  have hmj : j < (posts.map Entry.id).length := by simpa using hj
  have hg : (posts.map Entry.id)[i] = (posts.map Entry.id)[j] := by
    simpa using h
  exact (hIds.getElem_inj_iff).mp hg

lemma selInv_init (posts : List Entry) :
    SelInv posts ⟨List.replicate posts.length false, []⟩ := by
  refine ⟨by simp, List.nodup_nil, ?_⟩
  intro j
  simp [List.getElem?_replicate]
  intro hj
  split <;> simp_all

lemma toggle_selInv {posts : List Entry} (hIds : (posts.map Entry.id).Nodup)
    {st : ToggleState} (hst : SelInv posts st) {i : Nat} (hi : i < posts.length) :
    SelInv posts (toggle posts st i) := by
  obtain ⟨hlen, hnd, hmem⟩ := hst
  unfold toggle
  cases hb : st.flags.getD i false with
  | false =>
    simp only [hb, Bool.false_eq_true, if_false]
    have hnotin : i ∉ st.sel := by
      intro hin
      have h2 := ((hmem i).mp hin).2
      rw [hb] at h2
      cases h2
    refine ⟨by simpa using hlen, ?_, ?_⟩
    · rw [List.nodup_append]
      refine ⟨hnd, List.nodup_singleton i, ?_⟩
      intro a ha ha2
      rw [List.mem_singleton] at ha2
      subst ha2
      exact hnotin ha
    · intro j
      rw [List.mem_append, List.mem_singleton]
      by_cases hji : j = i
      · subst hji
        constructor
        · intro _
          exact ⟨hi, getD_set_self (by omega) true⟩
        · intro _
          exact Or.inr rfl
      · constructor
        · rintro (hj | hj)
          · have h2 := (hmem j).mp hj
            exact ⟨h2.1, by rw [getD_set_ne (fun e => hji e.symm) true]; exact h2.2⟩
          · exact absurd hj hji
        · rintro ⟨hjn, hflag⟩
          rw [getD_set_ne (fun e => hji e.symm) true] at hflag
          exact Or.inl ((hmem j).mpr ⟨hjn, hflag⟩)
  | true =>
    simp only [hb, if_true]
    have hiin : i ∈ st.sel := (hmem i).mpr ⟨hi, hb⟩
    obtain ⟨xs, ys, hxy⟩ := List.append_of_mem hiin
    rw [hxy] at hnd
    rw [List.nodup_append] at hnd
    obtain ⟨ndxs, ndiys, disj⟩ := hnd
    rw [List.nodup_cons] at ndiys
    obtain ⟨hiys, ndys⟩ := ndiys
    have hixs : i ∉ xs := fun hin => disj hin (List.mem_cons_self i ys)
    have hpother : ∀ a ∈ st.sel, a ≠ i → (idAt posts a == idAt posts i) = false := by
      intro a ha hne
      rw [beq_eq_false_iff_ne]
      intro heq
      exact hne (idAt_inj hIds ((hmem a).mp ha).1 hi heq)
    have hxs2 : ∀ a ∈ xs, (idAt posts a == idAt posts i) = false := by
      intro a ha
      refine hpother a (by rw [hxy]; exact List.mem_append_left _ ha) ?_
      rintro rfl
      exact hixs ha
    have hys2 : ∀ a ∈ ys, (idAt posts a == idAt posts i) = false := by
      intro a ha
      refine hpother a (by rw [hxy]; exact List.mem_append_right _ (List.mem_cons_of_mem i ha)) ?_
      rintro rfl
      exact hiys ha
    have hremove : jsEnumRemove (fun j => idAt posts j == idAt posts i) st.sel = xs ++ ys := by
      rw [hxy]
      exact jsEnumRemove_single _ xs ys i hxs2 (by simp) hys2
    rw [hremove]
    refine ⟨by simpa using hlen, ?_, ?_⟩
    · rw [List.nodup_append]
      exact ⟨ndxs, ndys, fun a ha ha2 => disj ha (List.mem_cons_of_mem i ha2)⟩
    · intro j
      by_cases hji : j = i
      · subst hji
        constructor
        · intro hj
          rcases List.mem_append.mp hj with hj | hj
          · exact absurd hj hixs
          · exact absurd hj hiys
        · rintro ⟨_, hflag⟩
          rw [getD_set_self (by omega) false] at hflag
          cases hflag
      · constructor
        · intro hj
          have hjsel : j ∈ st.sel := by
            rw [hxy]
            rcases List.mem_append.mp hj with hj | hj
            · exact List.mem_append_left _ hj
            · exact List.mem_append_right _ (List.mem_cons_of_mem i hj)
          have h2 := (hmem j).mp hjsel
          exact ⟨h2.1, by rw [getD_set_ne (fun e => hji e.symm) false]; exact h2.2⟩
        · rintro ⟨hjn, hflag⟩
          rw [getD_set_ne (fun e => hji e.symm) false] at hflag
          have hjsel := (hmem j).mpr ⟨hjn, hflag⟩
          rw [hxy] at hjsel
          rcases List.mem_append.mp hjsel with hj | hj
          · exact List.mem_append_left _ hj
          · rcases List.mem_cons.mp hj with hj | hj
            · exact absurd hj hji
            · exact List.mem_append_right _ hj

lemma runToggles_selInv (posts : List Entry) (events : List Nat)
    (hIds : (posts.map Entry.id).Nodup) (hev : ∀ i ∈ events, i < posts.length) :
    SelInv posts (runToggles posts events) := by
  unfold runToggles
  suffices h : ∀ (l : List Nat) (st : ToggleState),
      (∀ i ∈ l, i < posts.length) → SelInv posts st →
        SelInv posts (l.foldl (toggle posts) st) from
    h events _ hev (selInv_init posts)
  intro l
  induction l with
  | nil => intro st _ hst; simpa using hst
  | cons e t ih =>
    intro st hl hst
    simp only [List.foldl_cons]
    exact ih _ (fun i h2 => hl i (List.mem_cons_of_mem e h2))
      (toggle_selInv hIds hst (hl e (List.mem_cons_self e t)))

/-- Claim C7: starting from all entries unchecked and the empty selection
array, after any sequence of checkbox toggle events the selection array
contains exactly the positions of the entries whose isChecked flag is
true, each at most once, provided all entry ids are distinct. -/
theorem c7_selection_matches_checked (posts : List Entry) (events : List Nat)
    (hIds : (posts.map Entry.id).Nodup)
    (hev : ∀ i ∈ events, i < posts.length) :
    SelMatches posts (runToggles posts events) :=
  (runToggles_selInv posts events hIds hev).2

/-- Two concrete entries with distinct ids. -/
def posts2 : List Entry :=
  [⟨10, 2, "a", "dn", 3, 4, "u", false, ""⟩, ⟨11, 2, "b", "dn", 5, 4, "u", false, ""⟩]

/-- A concrete toggle sequence: check both entries, then uncheck the first. -/
def ev2 : List Nat := [0, 1, 0]

/-- Witness for claim C7 at a concrete catalog and toggle sequence. -/
theorem c7_witness :
    (posts2.map Entry.id).Nodup ∧ SelMatches posts2 (runToggles posts2 ev2) :=
  ⟨by decide, c7_selection_matches_checked posts2 ev2 (by decide) (by decide)⟩
